import Mathlib

/-!
# Verification of the Abmarl grid-world state components

Shallow embedding of `src/abmarl/sim/gridworld/state.py` (classes
`PositionState`, `MazePlacementState`, `HealthState`) and of the legacy
`src/admiral/envs/components/position.py` (`PositionState.set_position`,
`modify_position`), together with proofs of the spec claims about them.

Python exceptions are modelled with `Except PyErr`; the process-wide numpy
random generator is modelled by an explicit stream of natural numbers
(respectively rationals for health draws) consumed in draw order, where a
uniform choice among `n` alternatives is `k % n` for the consumed stream
value `k`.
-/

set_option autoImplicit false

namespace Abmarl

/-- The Python exception kinds raised by the embedded code. -/
inductive PyErr where
  | assertionError (msg : String)
  | valueError (msg : String)
  | keyError (msg : String)
  | indexError (msg : String)
  | attributeError (msg : String)
  | typeError (msg : String)
  | runtimeError (msg : String)
  deriving Repr, DecidableEq

/-- A grid-world agent record: unique id, positive integer encoding, and an
optional fixed initial position `(row, col)`. -/
structure Agent where
  id : String
  encoding : Nat
  initial_position : Option (Int × Int)
  deriving Repr, DecidableEq

/-- An entry of the grid occupancy: an agent that has been placed, together
with its recorded position (the `agent.position` attribute set by
`grid.place`). -/
structure PlacedAgent where
  id : String
  encoding : Nat
  pos : Int × Int
  deriving Repr, DecidableEq

/-- Static configuration shared by the state components: grid dimensions and
the grid's overlap policy (`grid.overlapping`), a mapping from an encoding to
the list of encodings it may share a cell with.  Per the spec the policy is
fixed at construction. -/
structure Config where
  rows : Nat
  cols : Nat
  overlapping : List (Nat × List Nat)
  deriving Repr, DecidableEq

/-- `overlapping.get(e, {})`: the set of encodings that may coexist with `e`,
empty when `e` has no entry. -/
def Config.overlapGet (cfg : Config) (e : Nat) : List Nat :=
  ((cfg.overlapping.find? (fun p => p.1 = e)).map Prod.snd).getD []

/-- Mutable state threaded through a reset: the grid occupancy (`placed`, in
placement order), the availability map `ravelled_positions_available`
(association list from encoding to the list of ravelled cells still
available), and the remaining random stream. -/
structure GWState where
  placed : List PlacedAgent
  avail : List (Nat × List Nat)
  rng : List Nat
  deriving Repr, DecidableEq

/-- Consume one value from the random stream (0 when exhausted). -/
def drawNat (st : GWState) : Nat × GWState :=
  match st.rng with
  | [] => (0, st)
  | k :: rest => (k, { st with rng := rest })

/-- `np.ravel_multi_index((r, c), (rows, cols))`: `r * cols + c`, raising
`ValueError` when a coordinate is out of `[0, rows) × [0, cols)`. -/
def ravel_multi_index (p : Int × Int) (rows cols : Nat) : Except PyErr Nat :=
  if 0 ≤ p.1 ∧ p.1 < (rows : Int) ∧ 0 ≤ p.2 ∧ p.2 < (cols : Int) then
    .ok (p.1.toNat * cols + p.2.toNat)
  else
    .error (.valueError "invalid entry in coordinates array")

/-- `np.unravel_index(n, shape=(rows, cols))`: `(n / cols, n % cols)`,
raising `ValueError` when `n` is not below `rows * cols`. -/
def unravel_index (n rows cols : Nat) : Except PyErr (Int × Int) :=
  if n < rows * cols then
    .ok ((n / cols : Nat), (n % cols : Nat))
  else
    .error (.valueError "index is out of bounds for array")

/-- Python dict subscript `d[k]` on the availability map: `KeyError` when the
key is absent. -/
def dictGet (d : List (Nat × List Nat)) (k : Nat) : Except PyErr (List Nat) :=
  match d.find? (fun p => p.1 = k) with
  | some p => .ok p.2
  | none => .error (.keyError (toString k))

/-- `list.remove(x)`: remove the first occurrence of `x`, raising
`ValueError` when `x` is absent. -/
def listRemove (l : List Nat) (x : Nat) : Except PyErr (List Nat) :=
  if x ∈ l then .ok (l.erase x) else .error (.valueError "list.remove(x): x not in list")

/-- Modelled from the spec: `Grid.place(agent, position)` of
`abmarl/sim/gridworld/base.py`, which is not under `src/`.  Spec section 4.1:
placement succeeds (returns `true`, records the agent in the cell and sets
the agent's position) only if the cell is empty or every current occupant's
encoding is overlap-compatible with the agent's encoding and vice versa,
per the configured overlap mapping; it fails without mutation otherwise. -/
def gridPlace (cfg : Config) (st : GWState) (a : Agent) (p : Int × Int) :
    Bool × GWState :=
  if (st.placed.filter (fun o => o.pos = p)).all (fun o =>
      a.encoding ∈ cfg.overlapGet o.encoding ∧ o.encoding ∈ cfg.overlapGet a.encoding)
  then (true, { st with placed := st.placed ++ [⟨a.id, a.encoding, p⟩] })
  else (false, st)

/-- The loop of `PositionState._update_available_positions`: for every
encoding whose overlap set of the just-placed agent's encoding does not
contain it, remove the placed ravelled cell from that encoding's list.  The
source wraps `positions_available.remove(...)` in `try ... except KeyError:
continue`, but `list.remove` raises `ValueError` on absence, which that
handler does not catch, so absence aborts the loop with `ValueError`. -/
def updateAvailLoop (cfg : Config) (aEnc n : Nat) :
    List (Nat × List Nat) → Except PyErr (List (Nat × List Nat))
  | [] => .ok []
  | (e, lst) :: rest =>
    if e ∈ cfg.overlapGet aEnc then
      (updateAvailLoop cfg aEnc n rest).map (fun r => (e, lst) :: r)
    else
      match listRemove lst n with
      | .ok lst2 => (updateAvailLoop cfg aEnc n rest).map (fun r => (e, lst2) :: r)
      | .error err => .error err

/-- `PositionState._update_available_positions(agent_just_placed)`. -/
def update_available_positions (cfg : Config) (st : GWState) (aEnc : Nat)
    (aPos : Int × Int) : Except PyErr GWState := do
  let n ← ravel_multi_index aPos cfg.rows cfg.cols
  let avail2 ← updateAvailLoop cfg aEnc n st.avail
  return { st with avail := avail2 }

/-- The error message of the fixed-position availability assertion. -/
def cellNotAvailableMsg (p : Int × Int) (agentId : String) : String :=
  s!"Cell ({p.1}, {p.2}) is not available for {agentId}."

/-- `PositionState._place_initial_position_agent(ip_agent_to_place)`:
ravel the initial position, assert it is in the agent's encoding's
availability list (a configuration error naming the agent otherwise),
assert `grid.place` succeeds, then update the availability map. -/
def place_initial_position_agent (cfg : Config) (st : GWState) (a : Agent)
    (ip : Int × Int) : Except PyErr GWState := do
  let n ← ravel_multi_index ip cfg.rows cfg.cols
  let lst ← dictGet st.avail a.encoding
  if n ∈ lst then
    match gridPlace cfg st a ip with
    | (true, st2) => update_available_positions cfg st2 a.encoding ip
    | (false, _) => .error (.assertionError "")
  else
    .error (.assertionError (cellNotAvailableMsg ip a.id))

/-- The placement-exhaustion error message of
`PositionState._place_variable_position_agent`. -/
def noCellMsg (agentId : String) : String :=
  "Could not find a cell for " ++ agentId

/-- `PositionState._place_variable_position_agent(var_agent_to_place)`:
uniformly sample a ravelled cell from the agent's encoding's availability
list via `np.random.choice` (whose `ValueError` on an empty list is turned
into `RuntimeError("Could not find a cell for <id>")`; a `KeyError` from the
dict subscript is not caught), unravel it, assert `grid.place`, update. -/
def place_variable_position_agent (cfg : Config) (st : GWState) (a : Agent) :
    Except PyErr GWState := do
  let lst ← dictGet st.avail a.encoding
  if lst = [] then
    .error (.runtimeError (noCellMsg a.id))
  else
    let (k, st1) := drawNat st
    let n := lst.getD (k % lst.length) 0
    let rc ← unravel_index n cfg.rows cfg.cols
    match gridPlace cfg st1 a rc with
    | (true, st2) => update_available_positions cfg st2 a.encoding rc
    | (false, _) => .error (.assertionError "")

/-- `max([agent.encoding for agent in self.agents.values()])`: `ValueError`
on an empty collection. -/
def maxEncoding (agents : List Agent) : Except PyErr Nat :=
  match agents with
  | [] => .error (.valueError "max() arg is an empty sequence")
  | a :: rest => .ok (rest.foldl (fun m b => max m b.encoding) a.encoding)

/-- `PositionState._build_available_positions()`: every encoding from 1 to
the maximum encoding gets the full list `[0, rows*cols)` of ravelled cells. -/
def build_available_positions (cfg : Config) (maxEnc : Nat) :
    List (Nat × List Nat) :=
  (List.range maxEnc).map (fun i => (i + 1, List.range (cfg.rows * cfg.cols)))

/-- The fixed-position pass of `PositionState.reset`: place, in order, every
agent whose `initial_position` is not `None`. -/
def fixedPass (cfg : Config) : List Agent → GWState → Except PyErr GWState
  | [], st => .ok st
  | a :: rest, st =>
    match a.initial_position with
    | some ip =>
      match place_initial_position_agent cfg st a ip with
      | .ok st2 => fixedPass cfg rest st2
      | .error e => .error e
    | none => fixedPass cfg rest st

/-- The random-position pass of `PositionState.reset`: place, in order, every
agent whose `initial_position` is `None`. -/
def variablePass (cfg : Config) : List Agent → GWState → Except PyErr GWState
  | [], st => .ok st
  | a :: rest, st =>
    match a.initial_position with
    | some _ => variablePass cfg rest st
    | none =>
      match place_variable_position_agent cfg st a with
      | .ok st2 => variablePass cfg rest st2
      | .error e => .error e

/-- `PositionState.reset()`: reset the grid, build the availability map,
run the fixed-position pass and then the random-position pass. -/
def PositionState.reset (cfg : Config) (agents : List Agent) (rng : List Nat) :
    Except PyErr GWState := do
  let maxEnc ← maxEncoding agents
  let st0 : GWState :=
    { placed := [], avail := build_available_positions cfg maxEnc, rng := rng }
  let st1 ← fixedPass cfg agents st0
  variablePass cfg agents st1

/-- The maze-specific configuration of `MazePlacementState` as stored by its
property setters (a `None` encoding set becomes the empty set). -/
structure MazeParams where
  barrier_encodings : List Nat
  free_encodings : List Nat
  barriers_near_target : Bool
  free_agents_far_from_target : Bool
  deriving Repr, DecidableEq

/-- `MazePlacementState.__init__`: after the base constructor, the
`target_agent` setter asserts the value is a `GridWorldAgent` instance
(`None`, the parameter's default, is not) and a member of the simulation's
agents; then the encoding sets and the two boolean flags are stored. -/
def MazePlacementState.init (agents : List Agent) (target : Option Agent)
    (barrier free : Option (List Nat)) (bnt faft : Bool) :
    Except PyErr (Agent × MazeParams) :=
  match target with
  | none => .error (.assertionError "Target agent must be a GridWorld agent.")
  | some t =>
    if t ∈ agents then
      .ok (t, ⟨barrier.getD [], free.getD [], bnt, faft⟩)
    else
      .error (.assertionError "The target agent must be an agent in the simulation.")

/-- `np.where(maze == v)` on a 2-D array: the pair of row-major lists of row
indices and column indices of the cells holding `v`. -/
def npWhere (maze : List (List Nat)) (v : Nat) : List Nat × List Nat :=
  let idx :=
    (maze.enum.map (fun row =>
      row.2.enum.filterMap (fun cell =>
        if cell.2 = v then some (row.1, cell.1) else none))).flatten
  (idx.map Prod.fst, idx.map Prod.snd)

/-- Python `range(arr)` applied to a 1-D numpy integer array (as the source
does with `range(barrier_positions[0])`): `range` calls `__index__`, which
succeeds only for a size-1 array (yielding its single element) and raises
`TypeError` for any other size. -/
def pyRangeOfArray (arr : List Nat) : Except PyErr (List Nat) :=
  match arr with
  | [k] => .ok (List.range k)
  | _ => .error (.typeError "only integer scalar arrays can be converted to a scalar index")

/-- `MazePlacementState._build_available_positions()`.  The maze produced by
`gu.generate_maze(rows, cols, maze_start)` is supplied as the explicit input
`maze` (modelled from the spec: `abmarl/sim/gridworld/utils.py` is not under
`src/`; the spec describes a randomized binary barrier/free grid).

The source initialises `ravelled_barrier_positions = set()` and then calls
`.append` and `.sort` on it, and iterates `for ndx in
range(barrier_positions[0])` over a numpy array, so every run raises before
the availability dictionary is assembled: `TypeError` from `range` unless the
maze has exactly one barrier cell, otherwise `AttributeError` from
`set.append` (first loop iteration) or `set.sort` (empty loop). -/
def MazePlacementState.build_available_positions (cfg : Config) (target : Agent)
    (maze : List (List Nat)) (st : GWState) :
    Except PyErr ((Int × Int) × GWState) := do
  let (mazeStart, _st1) ←
    match target.initial_position with
    | some ip => pure (ip, st)
    | none =>
      let (k, st') := drawNat st
      let n := k % (cfg.rows * cfg.cols)
      match unravel_index n cfg.rows cfg.cols with
      | .ok rc => pure (rc, st')
      | .error e => Except.error e
  let _ravelledMazeStart ← ravel_multi_index mazeStart cfg.rows cfg.cols
  let barrier_positions := npWhere maze 1
  let loopRange ← pyRangeOfArray barrier_positions.1
  match loopRange with
  | [] =>
    .error (.attributeError "set object has no attribute sort")
  | _ :: _ =>
    let r := barrier_positions.1.getD 0 0
    let c := barrier_positions.2.getD 0 0
    let _n ← ravel_multi_index ((r : Int), (c : Int)) cfg.rows cfg.cols
    .error (.attributeError "set object has no attribute append")

/-- `MazePlacementState.reset()`: reset the grid, build availability (which
always raises, see `MazePlacementState.build_available_positions`), then
`assert self.grid.place(self.target_agent, self._maze_start)` and
`self._update_available_positions(self.target)` — the latter reads the
nonexistent attribute `target` (the attribute is `target_agent`), an
`AttributeError`; every later line of the method is unreachable behind it. -/
def MazePlacementState.reset (cfg : Config) (target : Agent)
    (_params : MazeParams) (maze : List (List Nat)) (rng : List Nat) :
    Except PyErr GWState := do
  let st0 : GWState := { placed := [], avail := [], rng := rng }
  let (mazeStart, st1) ← MazePlacementState.build_available_positions cfg target maze st0
  match gridPlace cfg st1 target mazeStart with
  | (true, _st2) =>
    .error (.attributeError "MazePlacementState object has no attribute target")
  | (false, _) => .error (.assertionError "Unable to place target agent.")

/-- `MazePlacementState._place_variable_position_agent(var_agent_to_place)`:
when the agent's encoding priority flag is enabled (barrier encoding with
`barriers_near_target`, or free encoding with `free_agents_far_from_target`),
`self.ravelled_positions_available[encoding].pop()` removes and returns the
last list element; on an empty list `list.pop()` raises `IndexError`, which
the `except ValueError` handler does not catch, so the
`RuntimeError("Could not find a cell for <id>")` branch is dead and the
`IndexError` propagates.  Without the priority flag the base class's
uniform-random placement is used. -/
def MazePlacementState.place_variable_position_agent (cfg : Config)
    (params : MazeParams) (st : GWState) (a : Agent) : Except PyErr GWState :=
  if (a.encoding ∈ params.barrier_encodings ∧ params.barriers_near_target = true) ∨
     (a.encoding ∈ params.free_encodings ∧ params.free_agents_far_from_target = true) then do
    let lst ← dictGet st.avail a.encoding
    match lst.getLast? with
    | none => .error (.indexError "pop from empty list")
    | some n =>
      let lst2 := lst.dropLast
      let st1 : GWState :=
        { st with avail := st.avail.map (fun p => if p.1 = a.encoding then (p.1, lst2) else p) }
      let rc ← unravel_index n cfg.rows cfg.cols
      match gridPlace cfg st1 a rc with
      | (true, st2) => update_available_positions cfg st2 a.encoding rc
      | (false, _) => .error (.assertionError "")
  else
    Abmarl.place_variable_position_agent cfg st a

/-- An agent record for `HealthState`: `isHealthAgent` models
`isinstance(agent, HealthAgent)` (the health capability). -/
structure HAgent where
  id : String
  isHealthAgent : Bool
  initial_health : Option ℚ
  health : Option ℚ
  deriving Repr, DecidableEq

/-- Consume one value from the stream of uniform-[0,1] draws
(`np.random.uniform(0, 1)`); 0 when exhausted. -/
def drawQ (s : List ℚ) : ℚ × List ℚ :=
  match s with
  | [] => (0, [])
  | x :: r => (x, r)

/-- `HealthState.reset()`: for every agent, if it is a `HealthAgent` set its
health to `initial_health` when that is not `None` and otherwise to the next
uniform draw; other agents are left untouched.  Returns the updated agents
(in order) and the remaining draw stream. -/
def HealthState.reset : List HAgent → List ℚ → List HAgent × List ℚ
  | [], s => ([], s)
  | a :: rest, s =>
    if a.isHealthAgent then
      match a.initial_health with
      | some h0 =>
        let (tail, s2) := HealthState.reset rest s
        ({ a with health := some h0 } :: tail, s2)
      | none =>
        let (u, s1) := drawQ s
        let (tail, s2) := HealthState.reset rest s1
        ({ a with health := some u } :: tail, s2)
    else
      let (tail, s2) := HealthState.reset rest s
      (a :: tail, s2)

/-- The index into the uniform-draw stream consumed by agent `i` in
`HealthState.reset`: the number of earlier agents that draw (health-capable
with no `initial_health`). -/
def healthDrawIndex (agents : List HAgent) (i : Nat) : Nat :=
  ((agents.take i).filter
    (fun a => a.isHealthAgent && a.initial_health = none)).length

/-- A position lies inside the grid: `0 ≤ row < rows` and `0 ≤ col < cols`. -/
def Config.posInBounds (cfg : Config) (q : Int × Int) : Prop :=
  0 ≤ q.1 ∧ q.1 < (cfg.rows : Int) ∧ 0 ≤ q.2 ∧ q.2 < (cfg.cols : Int)

instance (cfg : Config) (q : Int × Int) : Decidable (cfg.posInBounds q) := by
  unfold Config.posInBounds
  infer_instance

instance : Inhabited HAgent := ⟨⟨"", false, none, none⟩⟩

/-- Specification-side description (from the spec's words, for comparison
with `HealthState.reset`) of what one agent looks like after the health
reset, `u` being the uniform draw available to it: a health-capable agent's
health becomes `initial_health` if specified, else `u`; any other agent is
untouched. -/
def healthAgentExpected (a : HAgent) (u : ℚ) : HAgent :=
  if a.isHealthAgent then { a with health := some (a.initial_health.getD u) }
  else a

/-- The overlap policy is symmetric: per the spec, cell compatibility is
checked in both directions, and availability bookkeeping is only coherent
for symmetric policies. -/
def overlapSymm (cfg : Config) : Prop :=
  ∀ e f, e ∈ cfg.overlapGet f → f ∈ cfg.overlapGet e

/-- Every availability list is duplicate-free (true of the freshly built map
and preserved by removals). -/
def availNodup (st : GWState) : Prop :=
  ∀ e lst, (e, lst) ∈ st.avail → lst.Nodup

/-- The availability/occupancy consistency invariant of the spec: if a
ravelled cell is still listed as available for an encoding, then every agent
already placed at that cell tolerates that encoding in its overlap set. -/
def availConsistent (cfg : Config) (st : GWState) : Prop :=
  ∀ e lst, (e, lst) ∈ st.avail → ∀ n ∈ lst, ∀ o ∈ st.placed,
    ravel_multi_index o.pos cfg.rows cfg.cols = .ok n →
    e ∈ cfg.overlapGet o.encoding

/-- The state invariant maintained by `PositionState.reset` between
placements. -/
def stateOK (cfg : Config) (st : GWState) : Prop :=
  availNodup st ∧ availConsistent cfg st

end Abmarl

namespace Admiral

/-- Both coordinates lie in `[0, region)`. -/
def inRegion (region : Nat) (p : Int × Int) : Prop :=
  0 ≤ p.1 ∧ p.1 < (region : Int) ∧ 0 ≤ p.2 ∧ p.2 < (region : Int)

end Admiral

namespace Admiral

/-- An agent record for the legacy `admiral.envs.components.position`
component: `isPositionAgent` models `isinstance(agent, PositionAgent)`. -/
structure PAgent where
  id : String
  isPositionAgent : Bool
  starting_position : Option (Int × Int)
  position : Int × Int
  deriving Repr, DecidableEq

/-- Legacy `PositionState.set_position(agent, _position)`: assign the new
position only when the agent is a `PositionAgent` and both coordinates are
in `[0, region)`; otherwise the agent is returned unchanged. -/
def PositionState.set_position (region : Nat) (a : PAgent) (p : Int × Int) :
    PAgent :=
  if a.isPositionAgent then
    if 0 ≤ p.1 ∧ p.1 < (region : Int) ∧ 0 ≤ p.2 ∧ p.2 < (region : Int) then
      { a with position := p }
    else a
  else a

/-- Legacy `PositionState.modify_position(agent, value)`: for a
`PositionAgent`, delegate to `set_position` with `agent.position + value`
(componentwise numpy addition); otherwise do nothing. -/
def PositionState.modify_position (region : Nat) (a : PAgent) (v : Int × Int) :
    PAgent :=
  if a.isPositionAgent then
    PositionState.set_position region a (a.position.1 + v.1, a.position.2 + v.2)
  else a

end Admiral

/-! ## Theorems about the claims -/

open Abmarl Admiral

/-- Claim C9: constructing a `MazePlacementState` without a `target_agent`
argument (the constructor's default is `None`, which is not a
`GridWorldAgent` instance) raises a configuration error at construction
time, for every choice of the remaining arguments. -/
theorem mazePlacement_init_requires_target (agents : List Agent)
    (barrier free : Option (List Nat)) (bnt faft : Bool) :
    MazePlacementState.init agents none barrier free bnt faft =
      .error (.assertionError "Target agent must be a GridWorld agent.") := rfl

/-- Claim C10: the legacy `PositionState.set_position` assigns the candidate
position exactly when the agent has the position capability and both
coordinates lie in `[0, region)`, leaves the agent entirely unchanged
otherwise, and consequently `modify_position` never moves an agent out of
the region. -/
theorem set_position_in_region_dichotomy (region : Nat) (a : PAgent)
    (p v : Int × Int) :
    (a.isPositionAgent = true ∧ inRegion region p →
      PositionState.set_position region a p = { a with position := p }) ∧
    (¬(a.isPositionAgent = true ∧ inRegion region p) →
      PositionState.set_position region a p = a) ∧
    (inRegion region a.position →
      inRegion region (PositionState.modify_position region a v).position) := by
  unfold PositionState.modify_position PositionState.set_position inRegion
  refine ⟨?_, ?_, ?_⟩
  · rintro ⟨hcap, h1, h2, h3, h4⟩
    simp [hcap, h1, h2, h3, h4]
  · intro h
    by_cases hcap : a.isPositionAgent = true
    · have hout : ¬(0 ≤ p.1 ∧ p.1 < (region : Int) ∧ 0 ≤ p.2 ∧ p.2 < (region : Int)) := by
        intro hin
        exact h ⟨hcap, hin⟩
      simp [hcap, hout]
    · simp [Bool.not_eq_true] at hcap
      simp [hcap]
  · intro hin
    by_cases hcap : a.isPositionAgent = true
    · simp only [hcap, if_true]
      by_cases hq : 0 ≤ a.position.1 + v.1 ∧ a.position.1 + v.1 < (region : Int) ∧
          0 ≤ a.position.2 + v.2 ∧ a.position.2 + v.2 < (region : Int)
      · simp [hq]
      · simp [hq, hin]
    · simp [Bool.not_eq_true] at hcap
      simp [hcap, hin]

/-- Witness for claim C10 at a concrete input. -/
theorem set_position_in_region_dichotomy_witness :
    PositionState.set_position 3 ⟨"A", true, none, (0, 0)⟩ (1, 2) =
      { id := "A", isPositionAgent := true, starting_position := none,
        position := (1, 2) } :=
  (set_position_in_region_dichotomy 3 ⟨"A", true, none, (0, 0)⟩ (1, 2) (0, 0)).1
    ⟨rfl, by constructor <;> [decide; constructor <;> [decide; constructor <;> decide]]⟩

/-- Claim C3: in the random-position pass, an agent whose encoding's
availability list is empty raises the placement-exhaustion `RuntimeError`
whose message contains the agent's id; in particular, on a 1x1 grid with two
non-overlapping agents without fixed positions, placing the second agent
raises exactly that error. -/
theorem place_variable_exhaustion_names_agent :
    (∀ (cfg : Config) (st : GWState) (a : Agent),
      dictGet st.avail a.encoding = .ok [] →
      place_variable_position_agent cfg st a =
        .error (.runtimeError ("Could not find a cell for " ++ a.id))) ∧
    PositionState.reset ⟨1, 1, []⟩ [⟨"A", 1, none⟩, ⟨"B", 1, none⟩] [0, 0] =
      .error (.runtimeError ("Could not find a cell for " ++ "B")) := by
  constructor
  · intro cfg st a h
    unfold place_variable_position_agent
    rw [h]
    rfl
  · rfl

/-- Witness for claim C3 at a concrete input. -/
theorem place_variable_exhaustion_names_agent_witness :
    place_variable_position_agent ⟨1, 1, []⟩ ⟨[], [(1, [])], []⟩ ⟨"B", 1, none⟩ =
      .error (.runtimeError ("Could not find a cell for " ++ "B")) :=
  place_variable_exhaustion_names_agent.1 ⟨1, 1, []⟩ ⟨[], [(1, [])], []⟩
    ⟨"B", 1, none⟩ rfl

/-- Claim C4 (code bug): `_update_available_positions` is meant to tolerate
the placed cell being already absent from some encoding's availability list
(its comment says so), but it catches `KeyError` while `list.remove` raises
`ValueError`, so the update raises.  First conjunct: the update itself
raises at a state where encoding 3's list no longer holds the placed cell.
Second conjunct: the same failure reached through a full
`PositionState.reset` — agents `A` (encoding 1) and `B` (encoding 2) may
overlap each other, both fixed at cell (0,0) of a 1x2 grid; placing `A`
removes cell 0 from encoding 3's list, and the availability update after
placing `B` then raises `ValueError` instead of tolerating the absence. -/
theorem update_available_positions_raises_on_absent_cell :
    update_available_positions ⟨1, 2, [(1, [2]), (2, [1])]⟩
        ⟨[], [(3, [1])], []⟩ 2 (0, 0) =
      .error (.valueError "list.remove(x): x not in list") ∧
    PositionState.reset ⟨1, 2, [(1, [2]), (2, [1])]⟩
        [⟨"A", 1, some (0, 0)⟩, ⟨"B", 2, some (0, 0)⟩, ⟨"C", 3, none⟩] [0] =
      .error (.valueError "list.remove(x): x not in list") := by
  constructor <;> rfl

/-- Claim C6 (code bug): `MazePlacementState._build_available_positions`
contains no validation that `barrier_encodings` and `free_encodings` cover
every encoding from 1 to the maximum; for EVERY maze parameter set (the
failing input `barrier = {1}, free = {}` with agent encodings {1, 2} as well
as any complete partition) the build raises the same `TypeError` coming from
`range(barrier_positions[0])` over a numpy array, not a configuration
error about the partition. -/
theorem mazePlacement_reset_no_partition_validation :
    ∀ (params : MazeParams) (rng : List Nat),
      MazePlacementState.reset ⟨2, 2, []⟩ ⟨"T", 1, some (0, 0)⟩ params
          [[0, 1], [1, 1]] rng =
        .error (.typeError "only integer scalar arrays can be converted to a scalar index") :=
  fun _ _ => rfl

/-- Claim C7 (code bug): in `MazePlacementState._place_variable_position_agent`
with a priority flag enabled, a nonempty availability list is consumed from
its last element (first conjunct: last element 3 of `[0, 3]` is popped and
the agent placed at its unravelled cell (1,1)), and without the priority
flag the base class's uniform draw is used verbatim (third conjunct); but on
an EMPTY list `list.pop()` raises `IndexError`, which the `except
ValueError` handler does not catch, so no "no cell available"
`RuntimeError` naming the agent is raised (second conjunct). -/
theorem mazePlacement_place_variable_pop_behaviour :
    MazePlacementState.place_variable_position_agent ⟨2, 2, [(1, [1])]⟩
        ⟨[1], [], true, false⟩ ⟨[], [(1, [0, 3])], []⟩ ⟨"A", 1, none⟩ =
      .ok ⟨[⟨"A", 1, (1, 1)⟩], [(1, [0])], []⟩ ∧
    MazePlacementState.place_variable_position_agent ⟨2, 2, []⟩
        ⟨[1], [], true, false⟩ ⟨[], [(1, [])], []⟩ ⟨"A", 1, none⟩ =
      .error (.indexError "pop from empty list") ∧
    MazePlacementState.place_variable_position_agent ⟨2, 2, []⟩
        ⟨[1], [], false, false⟩ ⟨[], [(1, [0])], []⟩ ⟨"A", 1, none⟩ =
      place_variable_position_agent ⟨2, 2, []⟩ ⟨[], [(1, [0])], []⟩ ⟨"A", 1, none⟩ := by
  refine ⟨?_, ?_, ?_⟩ <;> rfl

/-- Helper: every control path of
`MazePlacementState._build_available_positions` ends in a raised exception
(`TypeError` from `range` over a numpy index array, `AttributeError` from
`.append`/`.sort` on a `set`, or a `ValueError` from the index
conversions), so the availability map is never built. -/
theorem mazeBuild_always_raises (cfg : Config) (target : Agent)
    (maze : List (List Nat)) (st : GWState) :
    ∃ e, MazePlacementState.build_available_positions cfg target maze st =
      .error e := by
  unfold MazePlacementState.build_available_positions
  have tail_raises : ∀ (start : Int × Int) (st1 : GWState),
      ∃ e, (do
        let x ← (pure (start, st1) : Except PyErr ((Int × Int) × GWState))
        let _ ← ravel_multi_index x.1 cfg.rows cfg.cols
        let barrier_positions := npWhere maze 1
        let loopRange ← pyRangeOfArray barrier_positions.1
        match loopRange with
        | [] =>
          Except.error (PyErr.attributeError "set object has no attribute sort")
        | _ :: _ => do
          let _ ← ravel_multi_index ((barrier_positions.1.getD 0 0 : Int),
            (barrier_positions.2.getD 0 0 : Int)) cfg.rows cfg.cols
          (Except.error (PyErr.attributeError "set object has no attribute append") :
            Except PyErr ((Int × Int) × GWState))) = .error e := by
    intro start st1
    cases hr : ravel_multi_index start cfg.rows cfg.cols with
    | error e => exact ⟨e, by simp only [pure, Except.pure, bind, Except.bind, hr]⟩
    | ok n =>
      cases hpr : pyRangeOfArray (npWhere maze 1).1 with
      | error e => exact ⟨e, by simp only [pure, Except.pure, bind, Except.bind, hr, hpr]⟩
      | ok lr =>
        cases lr with
        | nil =>
          exact ⟨.attributeError "set object has no attribute sort",
            by simp only [pure, Except.pure, bind, Except.bind, hr, hpr]⟩
        | cons hd tl =>
          cases hr2 : ravel_multi_index (((npWhere maze 1).1.getD 0 0 : Int),
              ((npWhere maze 1).2.getD 0 0 : Int)) cfg.rows cfg.cols with
          | error e =>
            exact ⟨e, by simp only [pure, Except.pure, bind, Except.bind, hr, hpr, hr2]⟩
          | ok n2 =>
            exact ⟨.attributeError "set object has no attribute append",
              by simp only [pure, Except.pure, bind, Except.bind, hr, hpr, hr2]⟩
  cases hip : target.initial_position with
  | some ip => exact tail_raises ip st
  | none =>
    rcases hdraw : drawNat st with ⟨k, st2⟩
    cases hu : unravel_index (k % (cfg.rows * cfg.cols)) cfg.rows cfg.cols with
    | error e =>
      exact ⟨e, by simp only [bind, Except.bind, hdraw, hu]⟩
    | ok rc =>
      obtain ⟨e, he⟩ := tail_raises rc st2
      refine ⟨e, ?_⟩
      simp only [bind, Except.bind, hdraw, hu] at he ⊢
      exact he

/-- Claim C5 (code bug): `MazePlacementState.reset` never places the target
agent at the maze start cell nor updates availability for it: the call into
`_build_available_positions` raises on every input before the placement line
runs (and the subsequent `self._update_available_positions(self.target)`
line reads a nonexistent attribute anyway).  First conjunct: every reset
call errors.  Second conjunct: a concrete reset — target fixed at (0,0) on
a 2x2 grid — raises the set/list `TypeError`, and no state with the target
placed is ever produced. -/
theorem mazePlacement_reset_raises_before_placing_target :
    (∀ (cfg : Config) (target : Agent) (params : MazeParams)
        (maze : List (List Nat)) (rng : List Nat),
      ∃ e, MazePlacementState.reset cfg target params maze rng = .error e) ∧
    MazePlacementState.reset ⟨2, 2, []⟩ ⟨"T", 1, some (0, 0)⟩
        ⟨[1], [2], false, false⟩ [[0, 1], [1, 1]] [] =
      .error (.typeError "only integer scalar arrays can be converted to a scalar index") := by
  constructor
  · intro cfg target params maze rng
    obtain ⟨e, he⟩ :=
      mazeBuild_always_raises cfg target maze ⟨[], [], rng⟩
    refine ⟨e, ?_⟩
    unfold MazePlacementState.reset
    simp only [bind, Except.bind, he]
  · rfl

/-- Helper: the first value drawn from the health stream. -/
theorem drawQ_fst (s : List ℚ) : (drawQ s).1 = s.getD 0 0 := by
  cases s <;> rfl

/-- Helper: indexing after one draw shifts the stream index by one. -/
theorem drawQ_snd_getD (s : List ℚ) (k : Nat) :
    (drawQ s).2.getD k 0 = s.getD (k + 1) 0 := by
  cases s <;> rfl

/-- Helper: the draw index of agent `i + 1` relative to the tail. -/
theorem healthDrawIndex_cons_succ (a : HAgent) (rest : List HAgent) (i : Nat) :
    healthDrawIndex (a :: rest) (i + 1) =
      (if a.isHealthAgent ∧ a.initial_health = none then 1 else 0) +
        healthDrawIndex rest i := by
  unfold healthDrawIndex
  by_cases h : a.isHealthAgent = true ∧ a.initial_health = none
  · have hb : (a.isHealthAgent && decide (a.initial_health = none)) = true := by
      simp [h.1, h.2]
    simp [List.filter, hb, h, Nat.add_comm]
  · have hb : (a.isHealthAgent && decide (a.initial_health = none)) = false := by
      rcases Decidable.not_and_iff_or_not.mp h with h1 | h1 <;> simp [h1]
    simp [List.filter, hb, h]

/-- Helper: one step of `HealthState.reset` on a nonempty agent list. -/
theorem healthReset_cons (a : HAgent) (rest : List HAgent) (s : List ℚ) :
    HealthState.reset (a :: rest) s =
      if a.isHealthAgent then
        match a.initial_health with
        | some h0 =>
          (({ a with health := some h0 } : HAgent) ::
              (HealthState.reset rest s).1, (HealthState.reset rest s).2)
        | none =>
          (({ a with health := some ((drawQ s).1) } : HAgent) ::
              (HealthState.reset rest (drawQ s).2).1,
            (HealthState.reset rest (drawQ s).2).2)
      else (a :: (HealthState.reset rest s).1, (HealthState.reset rest s).2) := by
  by_cases hh : a.isHealthAgent = true
  · cases hh0 : a.initial_health <;> simp [HealthState.reset, hh, hh0]
  · simp [HealthState.reset, hh]

/-- Helper: `HealthState.reset` preserves the number of agents. -/
theorem healthReset_length (agents : List HAgent) (s : List ℚ) :
    (HealthState.reset agents s).1.length = agents.length := by
  induction agents generalizing s with
  | nil => rfl
  | cons a rest ih =>
    rw [healthReset_cons]
    by_cases hh : a.isHealthAgent = true
    · cases hh0 : a.initial_health <;> simp [hh, hh0, ih]
    · simp [hh, ih]

/-- Helper: agentwise description of `HealthState.reset`: agent `i` of the
result is the expected update of agent `i` of the input, fed the draw at
index `healthDrawIndex agents i`. -/
theorem healthReset_getD (agents : List HAgent) (s : List ℚ) (i : Nat)
    (hi : i < agents.length) :
    (HealthState.reset agents s).1.getD i default =
      healthAgentExpected (agents.getD i default)
        (s.getD (healthDrawIndex agents i) 0) := by
  induction agents generalizing s i with
  | nil => simp at hi
  | cons a rest ih =>
    rw [healthReset_cons]
    by_cases hh : a.isHealthAgent = true
    · cases hh0 : a.initial_health with
      | some h0 =>
        simp only [hh, if_true, hh0]
        cases i with
        | zero => simp [healthAgentExpected, hh, hh0, healthDrawIndex]
        | succ i =>
          have hi2 : i < rest.length := by simpa using hi
          rw [List.getD_cons_succ, List.getD_cons_succ, healthDrawIndex_cons_succ]
          have hno : ¬(a.isHealthAgent = true ∧ a.initial_health = none) := by
            simp [hh0]
          rw [if_neg hno, Nat.zero_add]
          exact ih s i hi2
      | none =>
        simp only [hh, if_true, hh0]
        cases i with
        | zero => simp [healthAgentExpected, hh, hh0, healthDrawIndex, drawQ_fst]
        | succ i =>
          have hi2 : i < rest.length := by simpa using hi
          rw [List.getD_cons_succ, List.getD_cons_succ, healthDrawIndex_cons_succ]
          rw [if_pos ⟨hh, hh0⟩, Nat.add_comm 1 (healthDrawIndex rest i)]
          rw [← drawQ_snd_getD]
          exact ih (drawQ s).2 i hi2
    · simp only [hh, if_false, Bool.false_eq_true]
      cases i with
      | zero =>
        have hh2 : a.isHealthAgent = false := by
          simpa using hh
        simp [healthAgentExpected, hh2]
      | succ i =>
        have hi2 : i < rest.length := by simpa using hi
        rw [List.getD_cons_succ, List.getD_cons_succ, healthDrawIndex_cons_succ]
        have hno : ¬(a.isHealthAgent = true ∧ a.initial_health = none) := by
          simp [hh]
        rw [if_neg hno, Nat.zero_add]
        exact ih s i hi2

/-- Claim C8: `HealthState.reset` keeps the agent list intact except that
every health-capable agent's health becomes its `initial_health` when
specified and otherwise the next uniform draw (draws consumed in agent
order), while agents without the health capability are left untouched; and
when every stream value lies in [0,1], so does every value handed to an
agent. -/
theorem healthState_reset_agentwise (agents : List HAgent) (s : List ℚ) :
    (HealthState.reset agents s).1.length = agents.length ∧
    (∀ i, i < agents.length →
      (HealthState.reset agents s).1.getD i default =
        healthAgentExpected (agents.getD i default)
          (s.getD (healthDrawIndex agents i) 0)) ∧
    ((∀ x ∈ s, 0 ≤ x ∧ x ≤ 1) → ∀ k, 0 ≤ s.getD k 0 ∧ s.getD k 0 ≤ 1) := by
  refine ⟨healthReset_length agents s, fun i hi => healthReset_getD agents s i hi, ?_⟩
  intro hs k
  by_cases hk : k < s.length
  · rw [List.getD_eq_getElem s 0 hk]
    exact hs s[k] (List.getElem_mem hk)
  · rw [List.getD_eq_default s 0 (Nat.le_of_not_lt hk)]
    exact ⟨le_refl 0, zero_le_one⟩

/-- Witness for claim C8 at a concrete input: a capable agent with an
initial health keeps it, an incapable agent is untouched, and a capable
agent without initial health receives the first draw. -/
theorem healthState_reset_agentwise_witness :
    (HealthState.reset
        [⟨"A", true, some (1/2), none⟩, ⟨"B", false, none, none⟩,
          ⟨"C", true, none, none⟩] [1/4]).1.getD 2 default =
      healthAgentExpected
        (([⟨"A", true, some (1/2), none⟩, ⟨"B", false, none, none⟩,
          ⟨"C", true, none, none⟩] : List HAgent).getD 2 default)
        (([(1/4 : ℚ)]).getD (healthDrawIndex
          [⟨"A", true, some (1/2), none⟩, ⟨"B", false, none, none⟩,
            ⟨"C", true, none, none⟩] 2) 0) :=
  (healthState_reset_agentwise
    [⟨"A", true, some (1/2), none⟩, ⟨"B", false, none, none⟩,
      ⟨"C", true, none, none⟩] [1/4]).2.1 2 (by decide)

/-- Helper: a successful ravel certifies the coordinates are in bounds. -/
theorem ravel_ok_bounds (p : Int × Int) (rows cols n : Nat)
    (h : ravel_multi_index p rows cols = .ok n) :
    0 ≤ p.1 ∧ p.1 < (rows : Int) ∧ 0 ≤ p.2 ∧ p.2 < (cols : Int) := by
  unfold ravel_multi_index at h
  split at h
  · assumption
  · exact absurd h (by simp)

/-- Helper: a successful unravel produces in-bounds coordinates. -/
theorem unravel_ok_bounds (n rows cols : Nat) (rc : Int × Int)
    (h : unravel_index n rows cols = .ok rc) :
    0 ≤ rc.1 ∧ rc.1 < (rows : Int) ∧ 0 ≤ rc.2 ∧ rc.2 < (cols : Int) := by
  unfold unravel_index at h
  split at h
  · rename_i hn
    have hcols : 0 < cols := by
      rcases Nat.eq_zero_or_pos cols with hc | hc
      · rw [hc, Nat.mul_zero] at hn
        exact absurd hn (Nat.not_lt_zero n)
      · exact hc
    have hdiv : n / cols < rows := Nat.div_lt_of_lt_mul (by
      rw [Nat.mul_comm] at hn
      exact hn)
    have hmod : n % cols < cols := Nat.mod_lt n hcols
    injection h with h2
    rw [← h2]
    refine ⟨Int.ofNat_nonneg _, ?_, Int.ofNat_nonneg _, ?_⟩
    · show ((n / cols : Nat) : Int) < ((rows : Nat) : Int)
      exact_mod_cast hdiv
    · show ((n % cols : Nat) : Int) < ((cols : Nat) : Int)
      exact_mod_cast hmod
  · exact absurd h (by simp)

/-- Helper: a successful availability update leaves the grid occupancy and
the random stream untouched. -/
theorem update_available_positions_placed (cfg : Config) (st : GWState)
    (aEnc : Nat) (aPos : Int × Int) (st2 : GWState)
    (h : update_available_positions cfg st aEnc aPos = .ok st2) :
    st2.placed = st.placed ∧ st2.rng = st.rng := by
  unfold update_available_positions at h
  cases hr : ravel_multi_index aPos cfg.rows cfg.cols with
  | error e => rw [hr] at h; simp [bind, Except.bind] at h
  | ok n =>
    rw [hr] at h
    simp only [bind, Except.bind] at h
    cases hl : updateAvailLoop cfg aEnc n st.avail with
    | error e => rw [hl] at h; simp at h
    | ok avail2 =>
      rw [hl] at h
      simp only [pure, Except.pure, Except.ok.injEq] at h
      rw [← h]
      exact ⟨rfl, rfl⟩

/-- Helper: a successful `gridPlace` appends exactly the new occupant. -/
theorem gridPlace_true_spec (cfg : Config) (st : GWState) (a : Agent)
    (p : Int × Int) (st2 : GWState) (h : gridPlace cfg st a p = (true, st2)) :
    st2.placed = st.placed ++ [⟨a.id, a.encoding, p⟩] ∧
      st2.avail = st.avail ∧ st2.rng = st.rng := by
  unfold gridPlace at h
  split at h
  · injection h with h1 h2
    rw [← h2]
    exact ⟨rfl, rfl, rfl⟩
  · injection h with h1 h2
    exact absurd h1 (by simp)

/-- Helper: drawing from the stream changes neither occupancy nor
availability. -/
theorem drawNat_state (st : GWState) :
    (drawNat st).2.placed = st.placed ∧ (drawNat st).2.avail = st.avail := by
  cases hrng : st.rng <;> simp [drawNat, hrng]

/-- Helper: a successful fixed placement appends exactly the agent at its
initial position, which the ravel check certifies to be in bounds. -/
theorem place_initial_ok_spec (cfg : Config) (st : GWState) (a : Agent)
    (ip : Int × Int) (st2 : GWState)
    (h : place_initial_position_agent cfg st a ip = .ok st2) :
    st2.placed = st.placed ++ [⟨a.id, a.encoding, ip⟩] ∧
      cfg.posInBounds ip ∧ st2.rng = st.rng := by
  unfold place_initial_position_agent at h
  cases hr : ravel_multi_index ip cfg.rows cfg.cols with
  | error e => rw [hr] at h; simp [bind, Except.bind] at h
  | ok n =>
    rw [hr] at h
    simp only [bind, Except.bind] at h
    cases hd : dictGet st.avail a.encoding with
    | error e => rw [hd] at h; simp at h
    | ok lst =>
      rw [hd] at h
      simp only [] at h
      split at h
      · rcases hgp : gridPlace cfg st a ip with ⟨b, stv⟩
        rw [hgp] at h
        cases b with
        | false => simp at h
        | true =>
          simp only [] at h
          obtain ⟨h1, h2⟩ := update_available_positions_placed cfg stv a.encoding ip st2 h
          obtain ⟨h3, _, h5⟩ := gridPlace_true_spec cfg st a ip stv hgp
          refine ⟨by rw [h1, h3], ?_, by rw [h2, h5]⟩
          exact ravel_ok_bounds ip cfg.rows cfg.cols n hr
      · simp at h

/-- Helper: a successful random placement appends exactly one new occupant
for the agent, at an in-bounds cell certified by the unravel check. -/
theorem place_variable_ok_spec (cfg : Config) (st : GWState) (a : Agent)
    (st2 : GWState) (h : place_variable_position_agent cfg st a = .ok st2) :
    ∃ rc, cfg.posInBounds rc ∧
      st2.placed = st.placed ++ [⟨a.id, a.encoding, rc⟩] := by
  unfold place_variable_position_agent at h
  cases hd : dictGet st.avail a.encoding with
  | error e => rw [hd] at h; simp [bind, Except.bind] at h
  | ok lst =>
    rw [hd] at h
    simp only [bind, Except.bind] at h
    split at h
    · simp at h
    · rcases hdr : drawNat st with ⟨k, st1⟩
      rw [hdr] at h
      simp only [] at h
      cases hu : unravel_index (lst.getD (k % lst.length) 0) cfg.rows cfg.cols with
      | error e => rw [hu] at h; simp at h
      | ok rc =>
        rw [hu] at h
        simp only [] at h
        rcases hgp : gridPlace cfg st1 a rc with ⟨b, stv⟩
        rw [hgp] at h
        cases b with
        | false => simp at h
        | true =>
          simp only [] at h
          obtain ⟨h1, _⟩ := update_available_positions_placed cfg stv a.encoding rc st2 h
          obtain ⟨h3, _, _⟩ := gridPlace_true_spec cfg st1 a rc stv hgp
          have hst1 : st1.placed = st.placed := by
            have := (drawNat_state st).1
            rw [hdr] at this
            exact this
          exact ⟨rc, unravel_ok_bounds _ cfg.rows cfg.cols rc hu,
            by rw [h1, h3, hst1]⟩

/-- Helper: a successful fixed-position pass only adds in-bounds occupants,
keeps all existing occupants, and puts every fixed-position agent of the
processed list on the grid at exactly its initial position. -/
theorem fixedPass_ok_spec (cfg : Config) (l : List Agent) (st st2 : GWState)
    (h : fixedPass cfg l st = .ok st2) :
    (∀ p ∈ st.placed, p ∈ st2.placed) ∧
    (∀ p ∈ st2.placed, p ∈ st.placed ∨ cfg.posInBounds p.pos) ∧
    (∀ a ∈ l, ∀ ip, a.initial_position = some ip →
      (⟨a.id, a.encoding, ip⟩ : PlacedAgent) ∈ st2.placed) := by
  induction l generalizing st with
  | nil =>
    unfold fixedPass at h
    injection h with h2
    subst h2
    exact ⟨fun p hp => hp, fun p hp => Or.inl hp, fun a ha => by simp at ha⟩
  | cons a rest ih =>
    unfold fixedPass at h
    split at h
    · rename_i ip hip
      split at h
      · rename_i stv hpl
        obtain ⟨hmono, hnew, hcov⟩ := ih stv h
        obtain ⟨hplaced, hbounds, _⟩ := place_initial_ok_spec cfg st a ip stv hpl
        have hmem : (⟨a.id, a.encoding, ip⟩ : PlacedAgent) ∈ stv.placed := by
          rw [hplaced]
          exact List.mem_append_right _ (List.mem_singleton.mpr rfl)
        refine ⟨?_, ?_, ?_⟩
        · intro p hp
          exact hmono p (by rw [hplaced]; exact List.mem_append_left _ hp)
        · intro p hp
          rcases hnew p hp with hin | hb
          · rw [hplaced] at hin
            rcases List.mem_append.mp hin with hin2 | hin2
            · exact Or.inl hin2
            · rw [List.mem_singleton.mp hin2]
              exact Or.inr hbounds
          · exact Or.inr hb
        · intro b hb ip2 hbip
          rcases List.mem_cons.mp hb with rfl | hb2
          · rw [hip] at hbip
            injection hbip with h3
            subst h3
            exact hmono _ hmem
          · exact hcov b hb2 ip2 hbip
      · simp at h
    · rename_i hip
      obtain ⟨hmono, hnew, hcov⟩ := ih st h
      refine ⟨hmono, hnew, ?_⟩
      intro b hb ip hbip
      rcases List.mem_cons.mp hb with rfl | hb2
      · rw [hip] at hbip
        exact absurd hbip (by simp)
      · exact hcov b hb2 ip hbip

/-- Helper: a successful random-position pass only adds in-bounds occupants,
keeps all existing occupants, and puts every variable-position agent of the
processed list on the grid. -/
theorem variablePass_ok_spec (cfg : Config) (l : List Agent) (st st2 : GWState)
    (h : variablePass cfg l st = .ok st2) :
    (∀ p ∈ st.placed, p ∈ st2.placed) ∧
    (∀ p ∈ st2.placed, p ∈ st.placed ∨ cfg.posInBounds p.pos) ∧
    (∀ a ∈ l, a.initial_position = none →
      ∃ p ∈ st2.placed, p.id = a.id ∧ p.encoding = a.encoding) := by
  induction l generalizing st with
  | nil =>
    unfold variablePass at h
    injection h with h2
    subst h2
    exact ⟨fun p hp => hp, fun p hp => Or.inl hp, fun a ha => by simp at ha⟩
  | cons a rest ih =>
    unfold variablePass at h
    split at h
    · rename_i ip hip
      obtain ⟨hmono, hnew, hcov⟩ := ih st h
      refine ⟨hmono, hnew, ?_⟩
      intro b hb hbip
      rcases List.mem_cons.mp hb with rfl | hb2
      · rw [hip] at hbip
        exact absurd hbip (by simp)
      · exact hcov b hb2 hbip
    · rename_i hip
      split at h
      · rename_i stv hpl
        obtain ⟨hmono, hnew, hcov⟩ := ih stv h
        obtain ⟨rc, hrc, hplaced⟩ := place_variable_ok_spec cfg st a stv hpl
        have hmem : (⟨a.id, a.encoding, rc⟩ : PlacedAgent) ∈ stv.placed := by
          rw [hplaced]
          exact List.mem_append_right _ (List.mem_singleton.mpr rfl)
        refine ⟨?_, ?_, ?_⟩
        · intro p hp
          exact hmono p (by rw [hplaced]; exact List.mem_append_left _ hp)
        · intro p hp
          rcases hnew p hp with hin | hb
          · rw [hplaced] at hin
            rcases List.mem_append.mp hin with hin2 | hin2
            · exact Or.inl hin2
            · rw [List.mem_singleton.mp hin2]
              exact Or.inr hrc
          · exact Or.inr hb
        · intro b hb hbip
          rcases List.mem_cons.mp hb with rfl | hb2
          · exact ⟨_, hmono _ hmem, rfl, rfl⟩
          · exact hcov b hb2 hbip
      · simp at h

/-- Claim C1: whenever `PositionState.reset` returns without raising, every
agent (fixed-position or randomly placed) ends up on the grid, and every
recorded position lies within `[0, rows) × [0, cols)`. -/
theorem positionState_reset_places_all_agents_in_bounds (cfg : Config)
    (agents : List Agent) (rng : List Nat) (st : GWState)
    (h : PositionState.reset cfg agents rng = .ok st) :
    (∀ a ∈ agents, ∃ p ∈ st.placed, p.id = a.id ∧ p.encoding = a.encoding) ∧
    (∀ p ∈ st.placed, cfg.posInBounds p.pos) := by
  unfold PositionState.reset at h
  cases hme : maxEncoding agents with
  | error e => rw [hme] at h; simp [bind, Except.bind] at h
  | ok me =>
    rw [hme] at h
    simp only [bind, Except.bind] at h
    split at h
    · simp at h
    · rename_i st1 hfp
      obtain ⟨_, hnewF, hcovF⟩ := fixedPass_ok_spec cfg agents _ st1 hfp
      obtain ⟨hmonoV, hnewV, hcovV⟩ := variablePass_ok_spec cfg agents st1 st h
      constructor
      · intro a ha
        cases hip : a.initial_position with
        | some ip =>
          exact ⟨_, hmonoV _ (hcovF a ha ip hip), rfl, rfl⟩
        | none =>
          exact hcovV a ha hip
      · intro p hp
        rcases hnewV p hp with hin | hb
        · rcases hnewF p hin with hin2 | hb2
          · simp at hin2
          · exact hb2
        · exact hb

/-- Witness for claim C1 at a concrete input: a 2x2 grid, one fixed and one
randomly placed agent. -/
theorem positionState_reset_places_all_agents_in_bounds_witness :
    Config.posInBounds ⟨2, 2, []⟩ ((1 : Int), (0 : Int)) :=
  (positionState_reset_places_all_agents_in_bounds ⟨2, 2, []⟩
      [⟨"A", 1, some (0, 0)⟩, ⟨"B", 1, none⟩] [1]
      ⟨[⟨"A", 1, (0, 0)⟩, ⟨"B", 1, (1, 0)⟩], [(1, [1, 3])], []⟩
      (by rfl)).2
    ⟨"B", 1, (1, 0)⟩ (by decide)

/-- Claim C2: in the fixed-position pass, for an agent with a fixed initial
position whose ravelled form is absent from its encoding's availability
list, the pass fails with the configuration error naming the cell and the
agent; when the ravelled form is present (and the symmetric overlap policy
together with the availability/occupancy consistency invariant hold, as
they do throughout a reset), `grid.place` succeeds and the agent is
recorded on the grid at exactly its configured initial position, the
remaining work being only the availability update. -/
theorem place_initial_position_dichotomy (cfg : Config) (st : GWState)
    (a : Agent) (rest : List Agent) (ip : Int × Int) (n : Nat) (lst : List Nat)
    (hip : a.initial_position = some ip)
    (hsym : overlapSymm cfg)
    (hcons : availConsistent cfg st)
    (hravel : ravel_multi_index ip cfg.rows cfg.cols = .ok n)
    (hlst : dictGet st.avail a.encoding = .ok lst) :
    (n ∉ lst →
      fixedPass cfg (a :: rest) st =
        .error (.assertionError (cellNotAvailableMsg ip a.id))) ∧
    (n ∈ lst → ∃ st2, gridPlace cfg st a ip = (true, st2) ∧
      (⟨a.id, a.encoding, ip⟩ : PlacedAgent) ∈ st2.placed ∧
      place_initial_position_agent cfg st a ip =
        update_available_positions cfg st2 a.encoding ip) := by
  have hpi : place_initial_position_agent cfg st a ip =
      if n ∈ lst then
        match gridPlace cfg st a ip with
        | (true, st2) => update_available_positions cfg st2 a.encoding ip
        | (false, _) => .error (.assertionError "")
      else .error (.assertionError (cellNotAvailableMsg ip a.id)) := by
    unfold place_initial_position_agent
    rw [hravel]
    simp only [bind, Except.bind]
    rw [hlst]
  constructor
  · intro hn
    have hpe : place_initial_position_agent cfg st a ip =
        .error (.assertionError (cellNotAvailableMsg ip a.id)) := by
      rw [hpi, if_neg hn]
    unfold fixedPass
    rw [hip]
    simp only [hpe]
  · intro hn
    have hmem : (a.encoding, lst) ∈ st.avail := by
      unfold dictGet at hlst
      cases hf : st.avail.find? (fun p => p.1 = a.encoding) with
      | none => rw [hf] at hlst; simp at hlst
      | some pr =>
        rw [hf] at hlst
        simp only [Except.ok.injEq] at hlst
        have hkey : pr.1 = a.encoding := by
          have := List.find?_some hf
          simpa using this
        have hin : pr ∈ st.avail := List.mem_of_find?_eq_some hf
        have : pr = (a.encoding, lst) := by
          rcases pr with ⟨pk, pv⟩
          simp only at hkey hlst
          rw [hkey, hlst]
        rw [← this]
        exact hin
    have hall : (st.placed.filter (fun o => o.pos = ip)).all (fun o =>
        a.encoding ∈ cfg.overlapGet o.encoding ∧
          o.encoding ∈ cfg.overlapGet a.encoding) = true := by
      rw [List.all_eq_true]
      intro o ho
      obtain ⟨ho1, ho2⟩ := List.mem_filter.mp ho
      have hpos : o.pos = ip := of_decide_eq_true ho2
      have h1 : a.encoding ∈ cfg.overlapGet o.encoding :=
        hcons a.encoding lst hmem n hn o ho1 (by rw [hpos]; exact hravel)
      exact decide_eq_true ⟨h1, hsym a.encoding o.encoding h1⟩
    have hgp : gridPlace cfg st a ip =
        (true, { st with placed := st.placed ++ [⟨a.id, a.encoding, ip⟩] }) := by
      unfold gridPlace
      rw [if_pos hall]
    refine ⟨_, hgp, ?_, ?_⟩
    · exact List.mem_append_right _ (List.mem_singleton.mpr rfl)
    · rw [hpi, if_pos hn, hgp]

/-- Witness for claim C2 at a concrete input: a 1x1 grid whose only cell has
already been removed from encoding 1's availability list, so the fixed-pass
fails with the configuration error naming the agent. -/
theorem place_initial_position_dichotomy_witness :
    fixedPass ⟨1, 1, []⟩ [⟨"A", 1, some (0, 0)⟩] ⟨[], [(1, [])], []⟩ =
      .error (.assertionError (cellNotAvailableMsg (0, 0) "A")) :=
  (place_initial_position_dichotomy ⟨1, 1, []⟩ ⟨[], [(1, [])], []⟩
    ⟨"A", 1, some (0, 0)⟩ [] (0, 0) 0 [] rfl
    (fun e f hf => absurd hf (by simp [Config.overlapGet]))
    (fun e lst hm n hn o ho hrv => absurd ho (by simp))
    (by rfl) (by rfl)).1 (by simp)

/-- Helper: exact description of a successful availability-update loop —
every encoding not overlap-compatible with the placed encoding has the
placed cell erased from its list, all other entries are untouched. -/
theorem updateAvailLoop_ok_spec (cfg : Config) (aEnc n : Nat)
    (avail avail2 : List (Nat × List Nat))
    (h : updateAvailLoop cfg aEnc n avail = .ok avail2) :
    avail2 = avail.map (fun p =>
      if p.1 ∈ cfg.overlapGet aEnc then p else (p.1, p.2.erase n)) := by
  induction avail generalizing avail2 with
  | nil =>
    unfold updateAvailLoop at h
    injection h with h2
    rw [← h2]
    rfl
  | cons pr rest ih =>
    rcases pr with ⟨e, lst⟩
    unfold updateAvailLoop at h
    split at h
    · rename_i he
      cases hrec : updateAvailLoop cfg aEnc n rest with
      | error err => rw [hrec] at h; simp [Except.map] at h
      | ok r =>
        rw [hrec] at h
        simp only [Except.map, Except.ok.injEq] at h
        rw [← h, ih r hrec]
        simp [he]
    · rename_i he
      split at h
      · rename_i lst2 hrem
        cases hrec : updateAvailLoop cfg aEnc n rest with
        | error err => rw [hrec] at h; simp [Except.map] at h
        | ok r =>
          rw [hrec] at h
          simp only [Except.map, Except.ok.injEq] at h
          have hl2 : lst2 = lst.erase n := by
            unfold listRemove at hrem
            split at hrem
            · injection hrem with h3
              exact h3.symm
            · exact absurd hrem (by simp)
          rw [← h, ih r hrec, hl2]
          simp [he]
      · simp at h

/-- Helper: exact description of a successful
`_update_available_positions` call. -/
theorem update_available_positions_ok_spec (cfg : Config) (st : GWState)
    (aEnc : Nat) (aPos : Int × Int) (st2 : GWState)
    (h : update_available_positions cfg st aEnc aPos = .ok st2) :
    ∃ np, ravel_multi_index aPos cfg.rows cfg.cols = .ok np ∧
      st2.placed = st.placed ∧ st2.rng = st.rng ∧
      st2.avail = st.avail.map (fun p =>
        if p.1 ∈ cfg.overlapGet aEnc then p else (p.1, p.2.erase np)) := by
  unfold update_available_positions at h
  cases hr : ravel_multi_index aPos cfg.rows cfg.cols with
  | error e => rw [hr] at h; simp [bind, Except.bind] at h
  | ok np =>
    rw [hr] at h
    simp only [bind, Except.bind] at h
    cases hl : updateAvailLoop cfg aEnc np st.avail with
    | error e => rw [hl] at h; simp at h
    | ok avail2 =>
      rw [hl] at h
      simp only [pure, Except.pure, Except.ok.injEq] at h
      refine ⟨np, rfl, ?_, ?_, ?_⟩ <;> rw [← h]
      exact updateAvailLoop_ok_spec cfg aEnc np st.avail avail2 hl

/-- Helper: the state invariant survives appending one occupant to the grid
followed by a successful availability update for it. -/
theorem stateOK_after_place_and_update (cfg : Config) (st stv st2 : GWState)
    (entry : PlacedAgent) (aPos : Int × Int)
    (hOK : stateOK cfg st)
    (hstvP : stv.placed = st.placed ++ [entry])
    (hstvA : stv.avail = st.avail)
    (hpos : entry.pos = aPos)
    (hupd : update_available_positions cfg stv entry.encoding aPos = .ok st2) :
    stateOK cfg st2 := by
  obtain ⟨np, hrv, hp2, _, hav2⟩ :=
    update_available_positions_ok_spec cfg stv entry.encoding aPos st2 hupd
  rw [hstvA] at hav2
  rw [hstvP] at hp2
  obtain ⟨hnd, hcons⟩ := hOK
  constructor
  · intro e lst2 hm
    rw [hav2] at hm
    obtain ⟨⟨e0, lst⟩, hin, heq⟩ := List.mem_map.mp hm
    by_cases he : e0 ∈ cfg.overlapGet entry.encoding
    · rw [if_pos he, Prod.ext_iff] at heq
      simp only at heq
      rw [← heq.2]
      exact hnd e0 lst hin
    · rw [if_neg he, Prod.ext_iff] at heq
      simp only at heq
      rw [← heq.2]
      exact (hnd e0 lst hin).erase np
  · intro e lst2 hm n hn o ho hro
    rw [hav2] at hm
    rw [hp2] at ho
    obtain ⟨⟨e0, lst⟩, hin, heq⟩ := List.mem_map.mp hm
    rcases List.mem_append.mp ho with hoOld | hoNew
    · have hnlst : n ∈ lst := by
        by_cases he : e0 ∈ cfg.overlapGet entry.encoding
        · rw [if_pos he, Prod.ext_iff] at heq
          simp only at heq
          rw [heq.2]
          exact hn
        · rw [if_neg he, Prod.ext_iff] at heq
          simp only at heq
          have hsub := List.erase_subset (l := lst) (a := np)
          exact hsub (by rw [heq.2]; exact hn)
      have hkey : e0 = e := by
        by_cases he : e0 ∈ cfg.overlapGet entry.encoding
        · rw [if_pos he, Prod.ext_iff] at heq
          simp only at heq
          exact heq.1
        · rw [if_neg he, Prod.ext_iff] at heq
          simp only at heq
          exact heq.1
      rw [← hkey]
      exact hcons e0 lst hin n hnlst o hoOld hro
    · have hoe : o = entry := List.mem_singleton.mp hoNew
      have hnp : n = np := by
        rw [hoe, hpos, hrv] at hro
        injection hro with h3
        exact h3.symm
      by_cases he : e0 ∈ cfg.overlapGet entry.encoding
      · rw [if_pos he, Prod.ext_iff] at heq
        simp only at heq
        rw [hoe, ← heq.1]
        exact he
      · rw [if_neg he, Prod.ext_iff] at heq
        simp only at heq
        have hne : n ≠ np := by
          have := ((hnd e0 lst hin).mem_erase_iff).mp (by rw [heq.2]; exact hn)
          exact this.1
        exact absurd hnp hne

/-- Helper: the state invariant is preserved by a successful fixed
placement. -/
theorem stateOK_place_initial (cfg : Config) (st : GWState) (a : Agent)
    (ip : Int × Int) (st2 : GWState) (hOK : stateOK cfg st)
    (h : place_initial_position_agent cfg st a ip = .ok st2) :
    stateOK cfg st2 := by
  unfold place_initial_position_agent at h
  cases hr : ravel_multi_index ip cfg.rows cfg.cols with
  | error e => rw [hr] at h; simp [bind, Except.bind] at h
  | ok n =>
    rw [hr] at h
    simp only [bind, Except.bind] at h
    cases hd : dictGet st.avail a.encoding with
    | error e => rw [hd] at h; simp at h
    | ok lst =>
      rw [hd] at h
      simp only [] at h
      split at h
      · rcases hgp : gridPlace cfg st a ip with ⟨b, stv⟩
        rw [hgp] at h
        cases b with
        | false => simp at h
        | true =>
          simp only [] at h
          obtain ⟨h3, h4, _⟩ := gridPlace_true_spec cfg st a ip stv hgp
          exact stateOK_after_place_and_update cfg st stv st2
            ⟨a.id, a.encoding, ip⟩ ip hOK h3 h4 rfl h
      · simp at h

/-- Helper: the state invariant is preserved by a successful random
placement. -/
theorem stateOK_place_variable (cfg : Config) (st : GWState) (a : Agent)
    (st2 : GWState) (hOK : stateOK cfg st)
    (h : place_variable_position_agent cfg st a = .ok st2) :
    stateOK cfg st2 := by
  unfold place_variable_position_agent at h
  cases hd : dictGet st.avail a.encoding with
  | error e => rw [hd] at h; simp [bind, Except.bind] at h
  | ok lst =>
    rw [hd] at h
    simp only [bind, Except.bind] at h
    split at h
    · simp at h
    · rcases hdr : drawNat st with ⟨k, st1⟩
      rw [hdr] at h
      simp only [] at h
      cases hu : unravel_index (lst.getD (k % lst.length) 0) cfg.rows cfg.cols with
      | error e => rw [hu] at h; simp at h
      | ok rc =>
        rw [hu] at h
        simp only [] at h
        rcases hgp : gridPlace cfg st1 a rc with ⟨b, stv⟩
        rw [hgp] at h
        cases b with
        | false => simp at h
        | true =>
          simp only [] at h
          obtain ⟨h3, h4, _⟩ := gridPlace_true_spec cfg st1 a rc stv hgp
          have hst1 : st1.placed = st.placed ∧ st1.avail = st.avail := by
            have := drawNat_state st
            rw [hdr] at this
            exact this
          refine stateOK_after_place_and_update cfg st stv st2
            ⟨a.id, a.encoding, rc⟩ rc ?_ ?_ ?_ rfl h
          · exact hOK
          · rw [h3, hst1.1]
          · rw [h4, hst1.2]

/-- Helper: the state invariant is preserved across the fixed-position pass. -/
theorem stateOK_fixedPass (cfg : Config) (l : List Agent) (st st2 : GWState)
    (hOK : stateOK cfg st) (h : fixedPass cfg l st = .ok st2) :
    stateOK cfg st2 := by
  induction l generalizing st with
  | nil =>
    unfold fixedPass at h
    injection h with h2
    rw [← h2]
    exact hOK
  | cons a rest ih =>
    unfold fixedPass at h
    split at h
    · rename_i ip hip
      split at h
      · rename_i stv hpl
        exact ih stv (stateOK_place_initial cfg st a ip stv hOK hpl) h
      · simp at h
    · exact ih st hOK h

/-- Helper: the state invariant is preserved across the random-position
pass. -/
theorem stateOK_variablePass (cfg : Config) (l : List Agent) (st st2 : GWState)
    (hOK : stateOK cfg st) (h : variablePass cfg l st = .ok st2) :
    stateOK cfg st2 := by
  induction l generalizing st with
  | nil =>
    unfold variablePass at h
    injection h with h2
    rw [← h2]
    exact hOK
  | cons a rest ih =>
    unfold variablePass at h
    split at h
    · exact ih st hOK h
    · split at h
      · rename_i stv hpl
        exact ih stv (stateOK_place_variable cfg st a stv hOK hpl) h
      · simp at h

/-- Helper: the state invariant holds at the start of every reset, for the
freshly built availability map and the cleared grid. -/
theorem stateOK_build (cfg : Config) (me : Nat) (rng : List Nat) :
    stateOK cfg ⟨[], build_available_positions cfg me, rng⟩ := by
  constructor
  · intro e lst hm
    unfold build_available_positions at hm
    obtain ⟨i, _, heq⟩ := List.mem_map.mp hm
    rw [Prod.ext_iff] at heq
    simp only at heq
    rw [← heq.2]
    exact List.nodup_range (cfg.rows * cfg.cols)
  · intro e lst hm n hn o ho
    exact absurd ho (by simp)
